import Mathlib

/-!
Shallow embedding of the device-discovery utilities of
src/librealsense2/src/context.h (namespace rsimpl2).

Descriptor types mirror the endpoint-descriptor data model: a uvc (video)
descriptor carries vendor id, product id, the physical-path unique_id and the
interface index mi; a hid (auxiliary) descriptor carries its unique_id; a usb
descriptor carries the product id used for recovery detection.  Equality is
structural (DecidableEq), matching operator== on the source structs.
-/

structure uvc_device_info where
  vid : Nat
  pid : Nat
  unique_id : String
  mi : Nat
deriving DecidableEq, Repr

structure hid_device_info where
  id : String
  unique_id : String
deriving DecidableEq, Repr

structure usb_device_info where
  id : String
  pid : Nat
  unique_id : String
deriving DecidableEq, Repr

/-- Error kinds thrown by the header: invalid_value_exception (get_mi) and
unrecoverable_exception with RS2_EXCEPTION_TYPE_DEVICE_IN_RECOVERY_MODE
(recovery_info::create). -/
inductive rs_error where
  | invalid_value (msg : String)
  | device_in_recovery_mode (msg : String)
deriving DecidableEq, Repr

/-- The opened device handle; its internals are outside this unit. -/
structure device where
deriving DecidableEq, Repr

/-- filter_by_product (context.h:154-163): keep the descriptors whose pid is
found in pid_list, preserving order. -/
def filter_by_product (devices : List uvc_device_info) (pid_list : List Nat) :
    List uvc_device_info :=
  devices.filter (fun info => decide (info.pid ∈ pid_list))

/-- trim_device_list (context.h:198-208): early return when chosen is empty,
otherwise erase every descriptor equal to a member of chosen. -/
def trim_device_list (devices : List uvc_device_info)
    (chosen : List uvc_device_info) : List uvc_device_info :=
  if chosen.isEmpty then devices
  else devices.filter (fun info => decide (info ∉ chosen))

/-- mi_present (context.h:210-218): linear scan for an interface index. -/
def mi_present (devices : List uvc_device_info) (mi : Nat) : Bool :=
  match devices with
  | [] => false
  | info :: rest => if info.mi = mi then true else mi_present rest mi

/-- get_mi (context.h:220-228): return the first descriptor with the given
interface index, or throw invalid_value_exception when none matches. -/
def get_mi (devices : List uvc_device_info) (mi : Nat) :
    Except rs_error uvc_device_info :=
  match devices with
  | [] => .error (.invalid_value "Interface not found!")
  | info :: rest => if info.mi = mi then .ok info else get_mi rest mi

/-- filter_by_mi (context.h:230-239): keep descriptors with the given
interface index, preserving order. -/
def filter_by_mi (devices : List uvc_device_info) (mi : Nat) :
    List uvc_device_info :=
  devices.filter (fun info => decide (info.mi = mi))

/-- recovery_info::is_recovery_pid (context.h:92-95). -/
def recovery_info.is_recovery_pid (pid : Nat) : Bool :=
  pid == 0x0ADB || pid == 0x0AB3

/-- The fixed remediation message of recovery_info (context.h:123). -/
def RECOVERY_MESSAGE : String :=
  "Selected RealSense device is in recovery mode!\nEither perform a firmware update or reconnect the camera to fall-back to last working firmware if available!"

/-- recovery_info (context.h:78-124): a device_info wrapping one dfu usb
descriptor. -/
structure recovery_info where
  dfu : usb_device_info
deriving DecidableEq, Repr

/-- recovery_info::create (context.h:81-85): always throws
DEVICE_IN_RECOVERY_MODE with the fixed message. -/
def recovery_info.create (_r : recovery_info) : Except rs_error device :=
  .error (.device_in_recovery_mode RECOVERY_MESSAGE)

/-- device_info::get_device (context.h:42-45) evaluates the lazy handle,
which for recovery_info runs create and hence always fails. -/
def recovery_info.get_device (r : recovery_info) : Except rs_error device :=
  r.create

/-- recovery_info::get_subdevice_count (context.h:87-90). -/
def recovery_info.get_subdevice_count (_r : recovery_info) : Nat := 1

/-- recovery_info::get_device_data (context.h:116-119): the descriptor group
is the single dfu descriptor. -/
def recovery_info.get_device_data (r : recovery_info) : List usb_device_info :=
  [r.dfu]

/-- recovery_info::pick_recovery_devices (context.h:97-110): one recovery_info
per usb descriptor whose pid is a recovery pid, in input order. -/
def recovery_info.pick_recovery_devices (usb_devices : List usb_device_info) :
    List recovery_info :=
  match usb_devices with
  | [] => []
  | usb :: rest =>
    if recovery_info.is_recovery_pid usb.pid then
      recovery_info.mk usb :: recovery_info.pick_recovery_devices rest
    else
      recovery_info.pick_recovery_devices rest

/-- dev.front() of a descriptor group (context.h:172); front() of an empty
vector is undefined behaviour in the source, modelled by a default value. -/
def front (dev : List uvc_device_info) : uvc_device_info :=
  dev.headD ⟨0, 0, "", 0⟩

/-- group_devices_and_hids_by_unique_id (context.h:165-181): pair each group
with the hids whose unique_id matches the group front's unique_id or the
wildcard marker. -/
def group_devices_and_hids_by_unique_id
    (devices : List (List uvc_device_info)) (hids : List hid_device_info) :
    List (List uvc_device_info × List hid_device_info) :=
  devices.map (fun dev =>
    (dev, hids.filter (fun hid =>
      decide (hid.unique_id = (front dev).unique_id ∨ hid.unique_id = "*"))))

/-- Lexicographic std::string comparison (std::less on std::string), written
as structural recursion over the character lists so that it evaluates. -/
def charListLt : List Char → List Char → Bool
  | [], [] => false
  | [], _ :: _ => true
  | _ :: _, [] => false
  | a :: as, b :: bs =>
    if a < b then true
    else if b < a then false
    else charListLt as bs

/-- std::less comparison on the unique_id strings of the std::map. -/
def strLt (a b : String) : Bool :=
  charListLt a.data b.data

/-- One insertion step of group_devices_by_unique_id (context.h:183-196):
map[info.unique_id].push_back(info) on the std::map, modelled as a
key-sorted association list (std::map iterates keys in ascending order). -/
def map_insert (m : List (String × List uvc_device_info))
    (info : uvc_device_info) : List (String × List uvc_device_info) :=
  match m with
  | [] => [(info.unique_id, [info])]
  | (k, g) :: rest =>
    if info.unique_id = k then (k, g ++ [info]) :: rest
    else if strLt info.unique_id k then
      (info.unique_id, [info]) :: (k, g) :: rest
    else (k, g) :: map_insert rest info

/-- group_devices_by_unique_id (context.h:183-196): insert every descriptor
into the map in input order, then read the groups back in key order. -/
def group_devices_by_unique_id (devices : List uvc_device_info) :
    List (List uvc_device_info) :=
  (devices.foldl map_insert []).map Prod.snd

/-- Invariant of the grouping map: keys strictly ascending, and every entry a
non-empty group whose members all carry the entry's key as their unique_id. -/
def groups_wf (m : List (String × List uvc_device_info)) : Prop :=
  (m.map Prod.fst).Pairwise (· < ·) ∧
  ∀ p ∈ m, p.2 ≠ [] ∧ ∀ d ∈ p.2, d.unique_id = p.1

/-- Snapshot type uvc::devices_data, equality-comparable; its fields are the
raw descriptor lists (declared in the backend collaborator, used by
device_info::operator== at context.h:54-57). -/
structure devices_data where
  uvc_devices : List uvc_device_info
  usb_devices : List usb_device_info
  hid_devices : List hid_device_info
deriving DecidableEq, Repr

/-- Modelled from the spec: a DeviceInfo for diffing purposes, identified by
the descriptor-group snapshot returned by get_device_data; two DeviceInfo are
equal iff those snapshots are structurally equal (context.h:54-57; the
on_device_changed body lives in context.cpp, which is not in the sources). -/
structure device_info where
  data : devices_data
deriving DecidableEq, Repr

/-- Modelled from the spec: context::sub, the set difference first − second
under DeviceInfo structural equality (declared at context.h:147, body in
context.cpp). -/
def context.sub (first second : List device_info) : List device_info :=
  first.filter (fun d => decide (d ∉ second))

/-- Modelled from the spec: context::on_device_changed (declared at
context.h:145, body in context.cpp) computes removed = old − curr and
added = curr − old and invokes the registered callback only when one of the
two is non-empty; the result is some (removed, added) exactly when the
callback is invoked, none when the change is a no-op. -/
def context.on_device_changed (old curr : List device_info) :
    Option (List device_info × List device_info) :=
  let removed := context.sub old curr
  let added := context.sub curr old
  if removed.isEmpty && added.isEmpty then none else some (removed, added)

/-! Concrete sample descriptors used by the witness theorems. -/

def dA : uvc_device_info := ⟨0x8086, 0x0AD1, "2-1", 0⟩

def dB : uvc_device_info := ⟨0x8086, 0x0AD1, "2-1", 3⟩

def dC : uvc_device_info := ⟨0x8086, 0x0AD2, "2-2", 0⟩

def hA : hid_device_info := ⟨"gyro", "2-1"⟩

def hW : hid_device_info := ⟨"imu", "*"⟩

def uR : usb_device_info := ⟨"dfu", 0x0ADB, "2-9"⟩

def di1 : device_info := ⟨⟨[dA, dB], [], [hA]⟩⟩

def di2 : device_info := ⟨⟨[dC], [], []⟩⟩

def uS : usb_device_info := ⟨"cam", 0x0AD1, "2-1"⟩

/-- C3: filter_by_product returns exactly the descriptors of D whose product
id is a member of ids, preserving relative order (an order-preserving
sublist); and together with the filter over the complement of ids within the
16-bit product-id space it recovers D as a set. -/
theorem filter_by_product_spec (D : List uvc_device_info)
    (ids comp_ids : List Nat)
    (hD : ∀ d ∈ D, d.pid < 2 ^ 16)
    (hcomp : ∀ p : Nat, p < 2 ^ 16 → (p ∈ comp_ids ↔ p ∉ ids)) :
    (filter_by_product D ids).Sublist D ∧
    (∀ d, d ∈ filter_by_product D ids ↔ d ∈ D ∧ d.pid ∈ ids) ∧
    (∀ d, (d ∈ filter_by_product D ids ∨ d ∈ filter_by_product D comp_ids)
      ↔ d ∈ D) := by
  refine ⟨List.filter_sublist _, ?_, ?_⟩
  · intro d
    simp [filter_by_product, List.mem_filter]
  · intro d
    constructor
    · rintro (h | h)
      · exact (List.mem_filter.mp h).1
      · exact (List.mem_filter.mp h).1
    · intro hd
      by_cases hp : d.pid ∈ ids
      · exact Or.inl (List.mem_filter.mpr ⟨hd, by simpa using hp⟩)
      · exact Or.inr (List.mem_filter.mpr
          ⟨hd, by simpa using (hcomp d.pid (hD d hd)).mpr hp⟩)

/-- Witness for C3 at a concrete collection, with ids the whole 16-bit space
and the empty complement. -/
theorem filter_by_product_spec_witness :
    (filter_by_product [dA, dC] (List.range 65536)).Sublist [dA, dC] ∧
    (∀ d, d ∈ filter_by_product [dA, dC] (List.range 65536) ↔
      d ∈ [dA, dC] ∧ d.pid ∈ List.range 65536) ∧
    (∀ d, (d ∈ filter_by_product [dA, dC] (List.range 65536) ∨
      d ∈ filter_by_product [dA, dC] []) ↔ d ∈ [dA, dC]) :=
  filter_by_product_spec [dA, dC] (List.range 65536) []
    (by intro d hd; fin_cases hd <;> decide)
    (by intro p hp; simp only [List.mem_range, List.not_mem_nil, false_iff,
      not_not]; omega)

/-- C4: trim_device_list with chosen a subset of devices yields a result
disjoint from chosen, and trim_device_list with an empty chosen list leaves
the device list unchanged. -/
theorem trim_device_list_spec (D C : List uvc_device_info)
    (hsub : ∀ c ∈ C, c ∈ D) :
    (∀ x ∈ trim_device_list D C, x ∉ C) ∧ trim_device_list D [] = D := by
  refine ⟨?_, by simp [trim_device_list]⟩
  intro x hx
  by_cases hC : C.isEmpty
  · rw [List.isEmpty_iff] at hC
    subst hC
    exact List.not_mem_nil x
  · unfold trim_device_list at hx
    rw [if_neg (by simpa using hC)] at hx
    simpa using (List.mem_filter.mp hx).2

/-- Witness for C4 at a concrete device list and chosen subset. -/
theorem trim_device_list_spec_witness :
    (∀ x ∈ trim_device_list [dA, dB, dC] [dB], x ∉ [dB]) ∧
    trim_device_list [dA, dB, dC] [] = [dA, dB, dC] :=
  trim_device_list_spec [dA, dB, dC] [dB] (by decide)

/-- C5: get_mi returns a descriptor of D whose interface index equals i when
one exists, and fails with the NotFound error (invalid_value with the fixed
message) exactly when no descriptor of D matches i. -/
theorem get_mi_spec (D : List uvc_device_info) (i : Nat) :
    (∀ d, get_mi D i = .ok d → d ∈ D ∧ d.mi = i) ∧
    ((∃ d ∈ D, d.mi = i) → ∃ d, get_mi D i = .ok d ∧ d ∈ D ∧ d.mi = i) ∧
    (get_mi D i = .error (.invalid_value "Interface not found!") ↔
      ∀ d ∈ D, d.mi ≠ i) := by
  induction D with
  | nil =>
    refine ⟨?_, ?_, ?_⟩ <;> simp [get_mi]
  | cons a rest ih =>
    by_cases ha : a.mi = i
    · refine ⟨?_, ?_, ?_⟩
      · intro d hd
        rw [get_mi, if_pos ha] at hd
        cases hd
        exact ⟨List.mem_cons_self a rest, ha⟩
      · intro _
        exact ⟨a, by rw [get_mi, if_pos ha], List.mem_cons_self a rest, ha⟩
      · rw [get_mi, if_pos ha]
        constructor
        · intro h; cases h
        · intro h; exact absurd ha (h a (List.mem_cons_self a rest))
    · refine ⟨?_, ?_, ?_⟩
      · intro d hd
        rw [get_mi, if_neg ha] at hd
        obtain ⟨hmem, hmi⟩ := ih.1 d hd
        exact ⟨List.mem_cons_of_mem a hmem, hmi⟩
      · rintro ⟨d, hd, hdi⟩
        rcases List.mem_cons.mp hd with rfl | hd'
        · exact absurd hdi ha
        · obtain ⟨e, he, hem, hei⟩ := ih.2.1 ⟨d, hd', hdi⟩
          exact ⟨e, by rw [get_mi, if_neg ha]; exact he,
            List.mem_cons_of_mem a hem, hei⟩
      · rw [get_mi, if_neg ha]
        rw [ih.2.2]
        constructor
        · intro h d hd
          rcases List.mem_cons.mp hd with rfl | hd'
          · exact ha
          · exact h d hd'
        · intro h d hd
          exact h d (List.mem_cons_of_mem a hd)

/-- Witness for C5: the lookup succeeds on a matching collection. -/
theorem get_mi_spec_witness :
    ∃ d, get_mi [dA, dB] 3 = .ok d ∧ d ∈ [dA, dB] ∧ d.mi = 3 :=
  (get_mi_spec [dA, dB] 3).2.1 ⟨dB, by decide, by decide⟩

/-- C6: is_recovery_pid holds exactly for the two reserved recovery product
ids 0x0ADB and 0x0AB3, and is false at 0 and at the values adjacent to the
reserved ids. -/
theorem is_recovery_pid_spec :
    (∀ pid : Nat, pid < 2 ^ 16 →
      (recovery_info.is_recovery_pid pid = true ↔
        pid = 0x0ADB ∨ pid = 0x0AB3)) ∧
    recovery_info.is_recovery_pid 0 = false ∧
    recovery_info.is_recovery_pid 0x0ADA = false ∧
    recovery_info.is_recovery_pid 0x0ADC = false ∧
    recovery_info.is_recovery_pid 0x0AB2 = false ∧
    recovery_info.is_recovery_pid 0x0AB4 = false := by
  refine ⟨fun pid _ => ?_, by decide, by decide, by decide, by decide,
    by decide⟩
  simp [recovery_info.is_recovery_pid]

/-- Witness for C6: the first reserved id is accepted. -/
theorem is_recovery_pid_spec_witness :
    recovery_info.is_recovery_pid 0x0ADB = true :=
  (is_recovery_pid_spec.1 0x0ADB (by decide)).mpr (Or.inl rfl)

/-- C7: pick_recovery_devices creates exactly one recovery DeviceInfo per
descriptor whose product id is a recovery id (in input order, none for the
others), each wrapping that single descriptor as its descriptor group; on any
such DeviceInfo get_device always fails with the DeviceInRecoveryMode error
carrying the fixed remediation message and never succeeds, and
get_subdevice_count returns exactly 1. -/
theorem pick_recovery_devices_spec (usb_devices : List usb_device_info) :
    (recovery_info.pick_recovery_devices usb_devices).map recovery_info.dfu
      = usb_devices.filter
          (fun usb => recovery_info.is_recovery_pid usb.pid) ∧
    ∀ r ∈ recovery_info.pick_recovery_devices usb_devices,
      recovery_info.is_recovery_pid r.dfu.pid = true ∧
      r.get_device = .error (.device_in_recovery_mode RECOVERY_MESSAGE) ∧
      (∀ d, r.get_device ≠ .ok d) ∧
      r.get_subdevice_count = 1 ∧
      r.get_device_data = [r.dfu] := by
  induction usb_devices with
  | nil =>
    exact ⟨rfl, by intro r hr; cases hr⟩
  | cons usb rest ih =>
    by_cases hu : recovery_info.is_recovery_pid usb.pid
    · refine ⟨?_, ?_⟩
      · rw [recovery_info.pick_recovery_devices, if_pos hu]
        simp [List.filter_cons, hu, ih.1]
      · intro r hr
        rw [recovery_info.pick_recovery_devices, if_pos hu] at hr
        rcases List.mem_cons.mp hr with rfl | hr'
        · refine ⟨hu, rfl, ?_, rfl, rfl⟩
          intro d h
          simp [recovery_info.get_device, recovery_info.create] at h
        · exact ih.2 r hr'
    · refine ⟨?_, ?_⟩
      · rw [recovery_info.pick_recovery_devices, if_neg hu]
        simp [List.filter_cons, hu, ih.1]
      · intro r hr
        rw [recovery_info.pick_recovery_devices, if_neg hu] at hr
        exact ih.2 r hr

/-- C8: on_device_changed of a snapshot against itself yields empty removed
and added lists and does not invoke the callback; in general removed and
added are the set differences old − curr and curr − old under DeviceInfo
structural equality, and the callback is invoked exactly when one of the two
lists is non-empty. -/
theorem on_device_changed_spec (old curr : List device_info) :
    context.on_device_changed old old = none ∧
    (∀ d, d ∈ context.sub old curr ↔ d ∈ old ∧ d ∉ curr) ∧
    (∀ d, d ∈ context.sub curr old ↔ d ∈ curr ∧ d ∉ old) ∧
    (context.on_device_changed old curr = none ↔
      context.sub old curr = [] ∧ context.sub curr old = []) ∧
    (context.on_device_changed old curr
        = some (context.sub old curr, context.sub curr old) ↔
      ¬(context.sub old curr = [] ∧ context.sub curr old = [])) := by
  have hself : context.sub old old = [] := by
    refine List.filter_eq_nil_iff.mpr ?_
    intro d hd
    simp [hd]
  refine ⟨?_, ?_, ?_, ?_, ?_⟩
  · simp [context.on_device_changed, hself]
  · intro d
    simp [context.sub, List.mem_filter]
  · intro d
    simp [context.sub, List.mem_filter]
  · rw [context.on_device_changed]
    by_cases h1 : context.sub old curr = [] <;>
      by_cases h2 : context.sub curr old = [] <;>
      simp [h1, h2, List.isEmpty_iff]
  · rw [context.on_device_changed]
    by_cases h1 : context.sub old curr = [] <;>
      by_cases h2 : context.sub curr old = [] <;>
      simp [h1, h2, List.isEmpty_iff]

/-- C9: mi_present is true exactly when some descriptor has the interface
index; filter_by_mi is the order-preserving subsequence of exactly the
matching descriptors (with their multiplicity); and get_mi returns the first
matching descriptor in input order, i.e. the head of filter_by_mi, when a
match exists, and the NotFound error otherwise. -/
theorem mi_utilities_spec (D : List uvc_device_info) (i : Nat) :
    (mi_present D i = true ↔ ∃ d ∈ D, d.mi = i) ∧
    (filter_by_mi D i).Sublist D ∧
    (∀ d, d ∈ filter_by_mi D i ↔ d ∈ D ∧ d.mi = i) ∧
    (∀ d, d.mi = i → (filter_by_mi D i).count d = D.count d) ∧
    get_mi D i = ((filter_by_mi D i).head?).elim
      (.error (.invalid_value "Interface not found!")) Except.ok := by
  refine ⟨?_, List.filter_sublist _, ?_, ?_, ?_⟩
  · induction D with
    | nil => simp [mi_present]
    | cons a rest ih =>
      by_cases ha : a.mi = i
      · simp [mi_present, ha]
      · rw [mi_present, if_neg ha, ih]
        constructor
        · rintro ⟨d, hd, hdi⟩
          exact ⟨d, List.mem_cons_of_mem a hd, hdi⟩
        · rintro ⟨d, hd, hdi⟩
          rcases List.mem_cons.mp hd with rfl | hd'
          · exact absurd hdi ha
          · exact ⟨d, hd', hdi⟩
  · intro d
    simp [filter_by_mi, List.mem_filter]
  · intro d hd
    induction D with
    | nil => rfl
    | cons a rest ih =>
      by_cases ha : a.mi = i
      · rw [filter_by_mi, List.filter_cons_of_pos (by simpa using ha)]
        rw [List.count_cons, List.count_cons]
        rw [filter_by_mi] at ih
        rw [ih]
      · rw [filter_by_mi, List.filter_cons_of_neg (by simpa using ha)]
        rw [List.count_cons]
        have hne : ¬(a = d) := by
          intro h; subst h; exact ha hd
        rw [filter_by_mi] at ih
        rw [ih]
        simp [hne]
  · induction D with
    | nil => rfl
    | cons a rest ih =>
      by_cases ha : a.mi = i
      · rw [get_mi, if_pos ha, filter_by_mi,
          List.filter_cons_of_pos (by simpa using ha)]
        rfl
      · rw [get_mi, if_neg ha, filter_by_mi,
          List.filter_cons_of_neg (by simpa using ha)]
        rw [filter_by_mi] at ih
        exact ih

/-- The executable character-list comparison agrees with the lexicographic
strict order on character lists. -/
theorem charListLt_iff (as bs : List Char) :
    charListLt as bs = true ↔ List.Lex (· < ·) as bs := by
  induction as generalizing bs with
  | nil =>
    cases bs with
    | nil =>
      simp only [charListLt, Bool.false_eq_true, false_iff]
      exact List.Lex.not_nil_right _ _
    | cons b bs =>
      simp only [charListLt, true_iff]
      exact List.Lex.nil
  | cons a as ih =>
    cases bs with
    | nil =>
      simp only [charListLt, Bool.false_eq_true, false_iff]
      exact List.Lex.not_nil_right _ _
    | cons b bs =>
      by_cases hab : a < b
      · simp only [charListLt, if_pos hab, true_iff]
        exact List.Lex.rel hab
      · by_cases hba : b < a
        · simp only [charListLt, if_neg hab, if_pos hba, Bool.false_eq_true,
            false_iff]
          intro h
          cases h with
          | cons h' => exact lt_irrefl a hba
          | rel h' => exact hab h'
        · have hEq : a = b := le_antisymm (not_lt.mp hba) (not_lt.mp hab)
          subst hEq
          simp only [charListLt, if_neg hab, if_neg hba]
          rw [ih bs]
          exact (List.Lex.cons_iff).symm

/-- strLt agrees with the Mathlib strict order on strings. -/
theorem strLt_iff (a b : String) : strLt a b = true ↔ a < b := by
  rw [String.lt_iff_toList_lt]
  exact charListLt_iff a.data b.data

/-- Any key present after a map_insert step is the inserted descriptor's
unique_id or a key that was already present. -/
theorem map_insert_keys (m : List (String × List uvc_device_info))
    (info : uvc_device_info) :
    ∀ k ∈ (map_insert m info).map Prod.fst,
      k = info.unique_id ∨ k ∈ m.map Prod.fst := by
  induction m with
  | nil =>
    intro k hk
    simp only [map_insert, List.map_cons, List.map_nil] at hk
    exact Or.inl (by simpa using hk)
  | cons p rest ih =>
    obtain ⟨k0, g⟩ := p
    intro k hk
    by_cases h1 : info.unique_id = k0
    · simp only [map_insert, if_pos h1] at hk
      simp only [List.map_cons] at hk ⊢
      exact Or.inr hk
    · by_cases h2 : strLt info.unique_id k0 = true
      · simp only [map_insert, if_neg h1, if_pos h2] at hk
        simp only [List.map_cons, List.mem_cons] at hk ⊢
        tauto
      · simp only [map_insert, if_neg h1, if_neg h2] at hk
        simp only [List.map_cons, List.mem_cons] at hk ⊢
        rcases hk with hk | hk
        · exact Or.inr (Or.inl hk)
        · rcases ih k hk with h | h
          · exact Or.inl h
          · exact Or.inr (Or.inr h)

/-- map_insert preserves the grouping-map invariant. -/
theorem map_insert_wf (m : List (String × List uvc_device_info))
    (info : uvc_device_info) (hm : groups_wf m) :
    groups_wf (map_insert m info) := by
  induction m with
  | nil =>
    refine ⟨by simp [map_insert], ?_⟩
    intro p hp
    simp only [map_insert, List.mem_singleton] at hp
    subst hp
    exact ⟨by simp, by simp⟩
  | cons q rest ih =>
    obtain ⟨k0, g⟩ := q
    obtain ⟨hsorted, hcoh⟩ := hm
    rw [List.map_cons, List.pairwise_cons] at hsorted
    obtain ⟨hk0, hrest_sorted⟩ := hsorted
    have hrest_wf : groups_wf rest :=
      ⟨hrest_sorted, fun p hp => hcoh p (List.mem_cons_of_mem _ hp)⟩
    by_cases h1 : info.unique_id = k0
    · simp only [map_insert, if_pos h1]
      refine ⟨by rw [List.map_cons, List.pairwise_cons]; exact ⟨hk0, hrest_sorted⟩, ?_⟩
      intro p hp
      rcases List.mem_cons.mp hp with rfl | hp'
      · refine ⟨by simp, ?_⟩
        intro d hd
        rcases List.mem_append.mp hd with hd' | hd'
        · exact (hcoh (k0, g) (List.mem_cons_self _ _)).2 d hd'
        · rw [List.mem_singleton.mp hd']
          exact h1
      · exact hcoh p (List.mem_cons_of_mem _ hp')
    · by_cases h2 : info.unique_id < k0
      · have hb2 : strLt info.unique_id k0 = true := (strLt_iff _ _).mpr h2
        simp only [map_insert, if_neg h1, if_pos hb2]
        refine ⟨?_, ?_⟩
        · rw [List.map_cons, List.pairwise_cons]
          refine ⟨?_, by rw [List.map_cons, List.pairwise_cons]; exact ⟨hk0, hrest_sorted⟩⟩
          intro k hk
          rw [List.map_cons] at hk
          rcases List.mem_cons.mp hk with rfl | hk'
          · exact h2
          · exact lt_trans h2 (hk0 k hk')
        · intro p hp
          rcases List.mem_cons.mp hp with rfl | hp'
          · exact ⟨by simp, by simp⟩
          · exact hcoh p hp'
      · have hb2 : ¬(strLt info.unique_id k0 = true) :=
          fun hb => h2 ((strLt_iff _ _).mp hb)
        have h3 : k0 < info.unique_id :=
          lt_of_le_of_ne (not_lt.mp h2) (Ne.symm h1)
        simp only [map_insert, if_neg h1, if_neg hb2]
        obtain ⟨ih_sorted, ih_coh⟩ := ih hrest_wf
        refine ⟨?_, ?_⟩
        · rw [List.map_cons, List.pairwise_cons]
          refine ⟨?_, ih_sorted⟩
          intro k hk
          rcases map_insert_keys rest info k hk with rfl | hk'
          · exact h3
          · exact hk0 k hk'
        · intro p hp
          rcases List.mem_cons.mp hp with rfl | hp'
          · exact hcoh (k0, g) (List.mem_cons_self _ _)
          · exact ih_coh p hp'

/-- One map_insert step prepends (up to permutation) the inserted descriptor
to the flattened contents of the grouping map. -/
theorem map_insert_join_perm (m : List (String × List uvc_device_info))
    (info : uvc_device_info) :
    ((map_insert m info).map Prod.snd).flatten.Perm
      (info :: (m.map Prod.snd).flatten) := by
  induction m with
  | nil =>
    simp [map_insert]
  | cons q rest ih =>
    obtain ⟨k0, g⟩ := q
    by_cases h1 : info.unique_id = k0
    · simp only [map_insert, if_pos h1, List.map_cons, List.flatten_cons]
      rw [List.append_assoc]
      exact List.perm_middle
    · by_cases h2 : strLt info.unique_id k0 = true
      · simp only [map_insert, if_neg h1, if_pos h2, List.map_cons,
          List.flatten_cons, List.singleton_append]
        exact List.Perm.refl _
      · simp only [map_insert, if_neg h1, if_neg h2, List.map_cons,
          List.flatten_cons]
        exact (ih.append_left g).trans List.perm_middle

/-- Folding map_insert over the input preserves the invariant. -/
theorem foldl_map_insert_wf (D : List uvc_device_info)
    (m : List (String × List uvc_device_info)) (hm : groups_wf m) :
    groups_wf (D.foldl map_insert m) := by
  induction D generalizing m with
  | nil => exact hm
  | cons d ds ih => exact ih _ (map_insert_wf m d hm)

/-- Folding map_insert over the input appends (up to permutation) the input
to the flattened contents of the grouping map. -/
theorem foldl_map_insert_join_perm (D : List uvc_device_info)
    (m : List (String × List uvc_device_info)) :
    ((D.foldl map_insert m).map Prod.snd).flatten.Perm
      ((m.map Prod.snd).flatten ++ D) := by
  induction D generalizing m with
  | nil => simp
  | cons d ds ih =>
    refine ((ih _).trans
      (((map_insert_join_perm m d).append_right ds).trans ?_))
    rw [List.cons_append]
    exact List.perm_middle.symm

/-- C1: group_by_unique_id is a total partition of its input: every group is
non-empty, all descriptors in a group share the same unique_id, the
concatenation of the groups is a permutation of the input (no drops, no
duplicates), every input descriptor lies in exactly one group, and the groups
are ordered by strictly ascending unique_id. -/
theorem group_by_unique_id_partition (D : List uvc_device_info) :
    (∀ g ∈ group_devices_by_unique_id D, g ≠ []) ∧
    (∀ g ∈ group_devices_by_unique_id D, ∀ d ∈ g, ∀ e ∈ g,
      d.unique_id = e.unique_id) ∧
    (group_devices_by_unique_id D).flatten.Perm D ∧
    (∀ d ∈ D, ∃! g, g ∈ group_devices_by_unique_id D ∧ d ∈ g) ∧
    (group_devices_by_unique_id D).Pairwise
      (fun g h => ∀ d ∈ g, ∀ e ∈ h, d.unique_id < e.unique_id) := by
  have hwf : groups_wf (D.foldl map_insert []) :=
    foldl_map_insert_wf D [] ⟨by simp, by simp⟩
  obtain ⟨hsorted, hcoh⟩ := hwf
  have hperm : (group_devices_by_unique_id D).flatten.Perm D := by
    have h := foldl_map_insert_join_perm D []
    simpa [group_devices_by_unique_id] using h
  have hpair : (group_devices_by_unique_id D).Pairwise
      (fun g h => ∀ d ∈ g, ∀ e ∈ h, d.unique_id < e.unique_id) := by
    rw [group_devices_by_unique_id, List.pairwise_map]
    have hkeys : (D.foldl map_insert []).Pairwise (fun p q => p.1 < q.1) :=
      (List.pairwise_map).mp hsorted
    refine hkeys.imp_of_mem ?_
    intro p q hp hq hlt d hd e he
    rw [(hcoh p hp).2 d hd, (hcoh q hq).2 e he]
    exact hlt
  have hne : ∀ g ∈ group_devices_by_unique_id D, g ≠ [] := by
    intro g hg
    rw [group_devices_by_unique_id] at hg
    obtain ⟨p, hp, rfl⟩ := List.mem_map.mp hg
    exact (hcoh p hp).1
  have hsame : ∀ g ∈ group_devices_by_unique_id D, ∀ d ∈ g, ∀ e ∈ g,
      d.unique_id = e.unique_id := by
    intro g hg d hd e he
    rw [group_devices_by_unique_id] at hg
    obtain ⟨p, hp, rfl⟩ := List.mem_map.mp hg
    rw [(hcoh p hp).2 d hd, (hcoh p hp).2 e he]
  refine ⟨hne, hsame, hperm, ?_, hpair⟩
  have hR : (group_devices_by_unique_id D).Pairwise
      (fun g h => ∀ x ∈ g, ∀ y ∈ h, x.unique_id ≠ y.unique_id) :=
    hpair.imp (fun hab x hx y hy => ne_of_lt (hab x hx y hy))
  have hsym : Symmetric (fun g h : List uvc_device_info =>
      ∀ x ∈ g, ∀ y ∈ h, x.unique_id ≠ y.unique_id) :=
    fun g h hgh x hx y hy => (hgh y hy x hx).symm
  intro d hd
  have hd' : d ∈ (group_devices_by_unique_id D).flatten :=
    hperm.mem_iff.mpr hd
  obtain ⟨g, hg, hdg⟩ := List.mem_flatten.mp hd'
  refine ⟨g, ⟨hg, hdg⟩, ?_⟩
  rintro g' ⟨hg', hdg'⟩
  by_contra hne'
  exact (hR.forall hsym hg' hg hne') d hdg' d hdg rfl

/-- Witness for C1: the partition property, evaluated on a concrete
collection with two distinct unique ids. -/
theorem group_by_unique_id_partition_witness :
    (group_devices_by_unique_id [dC, dA, dB]).flatten.Perm [dC, dA, dB] :=
  (group_by_unique_id_partition [dC, dA, dB]).2.2.1

/-- C2: for non-empty groups of uniform unique_id, each produced pair carries
exactly the auxiliary descriptors whose unique_id equals the group's
unique_id or equals the wildcard marker, and a wildcard auxiliary descriptor
appears in the paired auxiliary subset of every group. -/
theorem pair_groups_with_auxiliary_spec
    (devices : List (List uvc_device_info)) (hids : List hid_device_info)
    (hne : ∀ g ∈ devices, g ≠ [])
    (hhom : ∀ g ∈ devices, ∀ d ∈ g, ∀ e ∈ g, d.unique_id = e.unique_id) :
    ∀ p ∈ group_devices_and_hids_by_unique_id devices hids,
      (∀ d ∈ p.1, ∀ hid,
        hid ∈ p.2 ↔ hid ∈ hids ∧
          (hid.unique_id = d.unique_id ∨ hid.unique_id = "*")) ∧
      ∀ hid ∈ hids, hid.unique_id = "*" → hid ∈ p.2 := by
  intro p hp
  rw [group_devices_and_hids_by_unique_id] at hp
  obtain ⟨dev, hdev, rfl⟩ := List.mem_map.mp hp
  constructor
  · intro d hd hid
    have hfront : front dev ∈ dev := by
      cases dev with
      | nil => exact absurd rfl (hne [] hdev)
      | cons a rest => exact List.mem_cons_self a rest
    have huid : (front dev).unique_id = d.unique_id :=
      hhom dev hdev (front dev) hfront d hd
    simp only [List.mem_filter, decide_eq_true_eq]
    rw [huid]
  · intro hid hh hw
    simp only [List.mem_filter, decide_eq_true_eq]
    exact ⟨hh, Or.inr hw⟩

/-- Witness for C2: on two concrete groups the wildcard auxiliary descriptor
lands in the paired subset of the first group. -/
theorem pair_groups_with_auxiliary_spec_witness :
    hW ∈ (([dA, dB], [hA, hW]) :
      List uvc_device_info × List hid_device_info).2 :=
  (pair_groups_with_auxiliary_spec [[dA, dB], [dC]] [hA, hW]
    (by decide) (by decide) ([dA, dB], [hA, hW]) (by decide)).2
    hW (by decide) rfl

/-- C10: pair_groups_with_auxiliary returns exactly one pair per input group,
in input order, passing each group through unchanged; and the auxiliary
subsets depend only on the first element of each group (the only element the
function reads, which is why every input group must be non-empty): two group
lists with the same heads receive identical auxiliary subsets. -/
theorem pair_groups_frame (devices devices' : List (List uvc_device_info))
    (hids : List hid_device_info)
    (hheads : devices.map List.head? = devices'.map List.head?) :
    (group_devices_and_hids_by_unique_id devices hids).map Prod.fst
      = devices ∧
    (group_devices_and_hids_by_unique_id devices hids).map Prod.snd
      = (group_devices_and_hids_by_unique_id devices' hids).map Prod.snd := by
  constructor
  · rw [group_devices_and_hids_by_unique_id, List.map_map]
    exact List.map_id devices
  · induction devices generalizing devices' with
    | nil =>
      cases devices' with
      | nil => rfl
      | cons d' ds' => simp at hheads
    | cons d ds ih =>
      cases devices' with
      | nil => simp at hheads
      | cons d' ds' =>
        simp only [List.map_cons, List.cons.injEq] at hheads
        have hfront : front d = front d' := by
          cases d with
          | nil =>
            cases d' with
            | nil => rfl
            | cons a' r' => simp [List.head?] at hheads
          | cons a r =>
            cases d' with
            | nil => simp [List.head?] at hheads
            | cons a' r' =>
              have : a = a' := by simpa [List.head?] using hheads.1
              simp [front, this]
        simp only [group_devices_and_hids_by_unique_id, List.map_cons,
          List.map_map] at ih ⊢
        rw [hfront]
        rw [List.cons.injEq]
        refine ⟨rfl, ?_⟩
        have := ih ds' hheads.2
        simpa using this

/-- Witness for C10: two concrete group lists sharing heads receive the same
auxiliary subsets, and groups pass through unchanged. -/
theorem pair_groups_frame_witness :
    (group_devices_and_hids_by_unique_id [[dA, dB]] [hA, hW]).map Prod.fst
      = [[dA, dB]] ∧
    (group_devices_and_hids_by_unique_id [[dA, dB]] [hA, hW]).map Prod.snd
      = (group_devices_and_hids_by_unique_id [[dA]] [hA, hW]).map Prod.snd :=
  pair_groups_frame [[dA, dB]] [[dA]] [hA, hW] (by decide)

/-- Witness for C7: on a mixed usb list exactly the recovery-pid descriptor
is picked. -/
theorem pick_recovery_devices_spec_witness :
    (recovery_info.pick_recovery_devices [uR, uS]).map recovery_info.dfu
      = [uR, uS].filter (fun usb => recovery_info.is_recovery_pid usb.pid) :=
  (pick_recovery_devices_spec [uR, uS]).1

/-- Witness for C8: diffing a concrete snapshot against itself is a no-op. -/
theorem on_device_changed_spec_witness :
    context.on_device_changed [di1, di2] [di1, di2] = none :=
  (on_device_changed_spec [di1, di2] [di1, di2]).1

/-- Witness for C9: get_mi agrees with the head of filter_by_mi on a concrete
collection. -/
theorem mi_utilities_spec_witness :
    get_mi [dA, dB] 3 = ((filter_by_mi [dA, dB] 3).head?).elim
      (.error (.invalid_value "Interface not found!")) Except.ok :=
  (mi_utilities_spec [dA, dB] 3).2.2.2.2
